import Mathlib

/-
Verification of the PyMPLE profile-likelihood engine (src/PyMPLE.py).

Shallow embedding conventions:
* Python floats are modelled as rationals (ℚ); the float values `inf`/`-inf`
  produced by `float('Inf')` and `np.inf` are modelled by the extended type `XQ`.
* `np.log` and `scipy.stats.chi2.isf` are external library functions; they are
  carried as abstract function parameters (`log`, `chi2isf`) of the session.
* The external solver (`self.solver.solve` followed by `load_from`) is modelled
  as an oracle `solve : ℕ → Option ℚ` giving, for the n-th solve call of a
  direction run, the resulting objective value `value(self.m.obj)`, or `none`
  when the call raises.  The value recorded for the fixed profiled parameter
  after a successful solve is the value it was fixed to (`pardr`).
* Python dicts keyed by the strings `'{pname}_{dr}_{i}'` are modelled as
  association lists keyed by the iteration index as an `Int` (the name and
  direction are fixed inside one run; `str(i-1)` at `i = 0` yields key `-1`).
* A Python function falling off its end returns `None`: `step_CI`'s value is
  `Except StepErr (Option StepResult)`, where `Except.error` models an
  uncaught exception and `Except.ok none` models the fall-through `None`.
-/

namespace PyMPLE

/-- Direction of a single profiling run (`dr='up'` / `dr='down'`). -/
inductive Dir where
  | up
  | down
deriving DecidableEq, Repr

/-- Extended rationals: models Python floats including `float('Inf')` and
`np.inf` / `-np.inf`. -/
inductive XQ where
  | ninf
  | fin (q : ℚ)
  | pinf
deriving DecidableEq, Repr

/-- `qGT x b` models the float comparison `x > b` where `b` may be infinite. -/
def qGT (x : ℚ) : XQ → Bool
  | .ninf => true
  | .fin b => decide (b < x)
  | .pinf => false

/-- `qLT x b` models the float comparison `x < b` where `b` may be infinite. -/
def qLT (x : ℚ) : XQ → Bool
  | .ninf => false
  | .fin b => decide (x < b)
  | .pinf => true

/-- Lookup in an association list modelling a Python dict (`d[k]` / `d.get(k)`). -/
def dget {α β : Type} [DecidableEq α] : List (α × β) → α → Option β
  | [], _ => none
  | (k1, v1) :: t, k => if k1 = k then some v1 else dget t k

/-- Assignment `d[k] = v` on a Python dict: overwrite the existing entry or append. -/
def dset {α β : Type} [DecidableEq α] : List (α × β) → α → β → List (α × β)
  | [], k, v => [(k, v)]
  | (k1, v1) :: t, k, v => if k1 = k then (k, v) :: t else (k1, v1) :: dset t k v

/-- `d.pop(k, None)`: remove the entry for `k` (dicts built by `dset` from `[]`
have unique keys, so removing every occurrence is the same operation). -/
def dpop {α β : Type} [DecidableEq α] : List (α × β) → α → List (α × β)
  | [], _ => []
  | (k1, v1) :: t, k => if k1 = k then dpop t k else (k1, v1) :: dpop t k

/-- Dict merge `{**a, **b}`: entries of `b` override entries of `a`. -/
def dmerge {α β : Type} [DecidableEq α] (a b : List (α × β)) : List (α × β) :=
  b.foldl (fun acc kv => dset acc kv.1 kv.2) a

/-- Uncaught Python exceptions that the modelled code can raise. -/
inductive StepErr where
  | keyError
  | typeError
deriving DecidableEq, Repr

/-- Which stopping condition fired, mirroring the status line printed by
`step_CI` just before each `return`. -/
inductive StepExit where
  | converged
  | budget
  | boundReached
  | solveFailed
deriving DecidableEq, Repr

/-- The tuple returned by `step_CI`: `(bound, states_dict, _var_dict, _obj_dict)`,
instrumented with the printed stopping condition and the number of solver calls
made during the run. -/
structure StepResult where
  bound : XQ
  states : List (Int × ℚ)
  var_dict : List (Int × ℚ)
  obj_dict : List (Int × ℚ)
  exit : StepExit
  nsolves : ℕ
deriving DecidableEq, Repr

/-- The local variables of the `while` loop in `step_CI`, plus the solver-call
counter `nsolves`. -/
structure LoopState where
  i : ℕ
  err : ℚ
  pstep : ℚ
  stepfrac : ℚ
  pardr : ℚ
  nextdr : ℚ
  bdreach : Bool
  var_dict : List (Int × ℚ)
  obj_dict : List (Int × ℚ)
  nsolves : ℕ
deriving DecidableEq, Repr

/-- The values of `step_CI` that are fixed for the whole run: the abstract
library functions, the session data, the direction-dependent target bound,
the signed default step fraction `def_SF`, `bd_eps`, and `ctol`. -/
structure Ctx where
  log : ℚ → ℚ
  solve : ℕ → Option ℚ
  popt : ℚ
  objCI : ℚ
  etol : ℚ
  bound : XQ
  defSF : ℚ
  bdEps : ℚ
  dr : Dir
  ctol : ℕ

/-- Outcome of one iteration of the loop body: either a `return` (possibly an
uncaught exception) or the next loop state. -/
inductive BodyOut where
  | ret (r : Except StepErr (Option StepResult))
  | cont (s : LoopState)

/-- The float value of the adaptive-progress measure `d`: a finite value, or
the `inf` / `-inf` / `nan` that numpy produces when the denominator of the
progress quotient is a (signed) zero. -/
inductive DVal where
  | nan
  | ninf
  | fin (q : ℚ)
  | pinf
deriving DecidableEq, Repr

/-- The float comparison `d <= x`: `nan` compares false, `-inf` true,
`inf` false, finite values exactly. -/
def dLE (d : DVal) (x : ℚ) : Bool :=
  match d with
  | .nan => false
  | .ninf => true
  | .fin q => decide (q ≤ x)
  | .pinf => false

/-- The step-fraction update: `if d <= 0.01: stepfrac = 1.05*stepfrac
else: stepfrac = def_SF` (a `nan` progress measure fails the test and takes
the reset branch). -/
def updSF (c : Ctx) (sf : ℚ) (d : DVal) : ℚ :=
  if dLE d (1 / 100) then 21 / 20 * sf else c.defSF

/-- The adaptive-progress measure for `i > 0`:
`d = |log(obj_prev) - log(obj_cur)| / (|log(obj_prev)| * stepfrac)`,
with IEEE semantics for a zero denominator (which arises when
`log(obj_prev) = 0.0` exactly — an objective of exactly `1.0` — or when
`stepfrac = 0.0`): the nonnegative numerator over the signed zero
`|log(obj_prev)| * stepfrac` gives `nan` when the numerator is also zero, and
otherwise `-inf` for a negative `stepfrac` (denominator `-0.0`) and `inf`
for a nonnegative one.  A nonzero denominator divides exactly. -/
def dComp (c : Ctx) (qp q sf : ℚ) : DVal :=
  if |c.log qp| * sf = 0 then
    if |c.log qp - c.log q| = 0 then .nan
    else if sf < 0 then .ninf else .pinf
  else .fin (|c.log qp - c.log q| / (|c.log qp| * sf))

/-- `np.inf` for the up direction, `-np.inf` for the down direction
(the budget-exhausted return values). -/
def signedInf : Dir → XQ
  | .up => .pinf
  | .down => .ninf

/-- The bound-crossing test: `nextdr > bound` when stepping up,
`nextdr < bound` when stepping down. -/
def bdCross (c : Ctx) (x : ℚ) : Bool :=
  match c.dr with
  | .up => qGT x c.bound
  | .down => qLT x c.bound

/-- The `while` guard: `i < ctol and err <= etol and not bdreach`. -/
def guard (c : Ctx) (s : LoopState) : Bool :=
  decide (s.i < c.ctol) && decide (s.err ≤ c.etol) && !s.bdreach

/-- The `except` handler of `step_CI`: look up the record of iteration `i-1`
(raising `KeyError` when it does not exist, in particular at `i = 0`), pop the
partial records of iteration `i`, and return the rolled-back value.  `vd`/`od`
are the dicts at the moment the exception was raised. -/
def exceptBranch (c : Ctx) (s : LoopState) (vd od : List (Int × ℚ)) (n : ℕ) :
    Except StepErr (Option StepResult) :=
  match dget vd ((s.i : Int) - 1) with
  | none => .error .keyError
  | some v =>
      .ok (some { bound := .fin v, states := [], var_dict := dpop vd (s.i : Int),
                  obj_dict := dpop od (s.i : Int), exit := .solveFailed, nsolves := n })

/-- The tail of a successful iteration, after the progress measure `d` has been
determined: update the step fraction, test convergence (`err > etol`), test
budget exhaustion (`i == ctol - 1`), project `nextdr` and test bound crossing,
otherwise continue with `i + 1`. -/
def afterD (c : Ctx) (s : LoopState) (q err : ℚ) (d : DVal) (pstep pardr : ℚ)
    (vd od : List (Int × ℚ)) : BodyOut :=
  let sf2 := updSF c s.stepfrac d
  let n := s.nsolves + 1
  if c.etol < err then
    .ret (.ok (some { bound := .fin pardr, states := [], var_dict := vd,
                      obj_dict := od, exit := .converged, nsolves := n }))
  else if s.i = c.ctol - 1 then
    .ret (.ok (some { bound := signedInf c.dr, states := [], var_dict := vd,
                      obj_dict := od, exit := .budget, nsolves := n }))
  else
    let nextdr := s.nextdr + c.popt * sf2
    if bdCross c nextdr then
      .ret (.ok (some { bound := .fin pardr, states := [], var_dict := vd,
                        obj_dict := od, exit := .boundReached, nsolves := n }))
    else
      .cont { i := s.i + 1, err := err, pstep := pstep, stepfrac := sf2,
              pardr := pardr, nextdr := nextdr, bdreach := bdCross c nextdr,
              var_dict := vd, obj_dict := od, nsolves := n }

/-- The body of the `try` block after a successful solve with objective `q`:
record the step, compute the error statistic and the progress measure
(`d = err` at `i = 0`; at `i > 0` a failing dict lookup routes to the
`except` handler), then continue in `afterD`. -/
def solveOk (c : Ctx) (s : LoopState) (q : ℚ) : BodyOut :=
  let pstep := s.pstep + s.stepfrac * c.popt
  let pardr := c.popt + pstep
  let err := 2 * (c.log q - c.log c.objCI)
  let vd := dset s.var_dict (s.i : Int) pardr
  let od := dset s.obj_dict (s.i : Int) q
  if 0 < s.i then
    match dget od ((s.i : Int) - 1) with
    | none => .ret (exceptBranch c s vd od (s.nsolves + 1))
    | some qp => afterD c s q err (dComp c qp q s.stepfrac) pstep pardr vd od
  else
    afterD c s q err (.fin err) pstep pardr vd od

/-- One iteration of the loop body, dispatching on the solver outcome `o`.
A failed solve raises before any record of iteration `i` is written, so the
`except` handler sees the dicts unchanged. -/
def stepDispatch (c : Ctx) (s : LoopState) : Option ℚ → BodyOut
  | none => .ret (exceptBranch c s s.var_dict s.obj_dict (s.nsolves + 1))
  | some q => solveOk c s q

/-- One iteration of the `while` body of `step_CI`. -/
def stepBody (c : Ctx) (s : LoopState) : BodyOut :=
  stepDispatch c s (c.solve s.nsolves)

/-- The `while` loop, by fuel.  `fuel = ctol` suffices from the initial state:
the guard requires `i < ctol` and each continuation increments `i`, so the
fuel-exhausted branch coincides with the guard-false branch (`.ok none` models
falling off the end of the Python function, which returns `None`). -/
def stepLoop (c : Ctx) : ℕ → LoopState → Except StepErr (Option StepResult)
  | 0, _ => .ok none
  | fuel + 1, s =>
      if guard c s then
        match stepBody c s with
        | .ret r => r
        | .cont s2 => stepLoop c fuel s2
      else
        .ok none

/-- The session data visible to `step_CI`: abstract `np.log` and `chi2.isf`,
the optimal parameter value `popt[pname]`, the baseline objective `self.obj`,
the declared bounds `pbounds[pname]` (Python `None` is `none`), `alpha`,
`ctol = maxSteps`, and the solver oracle for this run. -/
structure Env where
  log : ℚ → ℚ
  chi2isf : ℚ → ℚ → ℚ
  popt : ℚ
  obj0 : ℚ
  lb : Option ℚ
  ub : Option ℚ
  alpha : ℚ
  ctol : ℕ
  solve : ℕ → Option ℚ

/-- The target bound selected by `step_CI`: the declared bound when it is
truthy (a Python float `0.0` and `None` are both falsy), otherwise `inf` for
the up direction and the hardcoded floor `1e-10` for the down direction. -/
def targetBound (lb ub : Option ℚ) : Dir → XQ
  | .up =>
      match ub with
      | some b => if b ≠ 0 then .fin b else .pinf
      | none => .pinf
  | .down =>
      match lb with
      | some b => if b ≠ 0 then .fin b else .fin (1 / 10000000000)
      | none => .fin (1 / 10000000000)

/-- Assemble the run-constant data of `step_CI` from the session, direction and
requested step fraction (`etol = chi2.isf(alpha, df)` with `df = 1.0`, computed
once before the loop; `stepfrac` and `bd_eps` are negated for the down run). -/
def mkCtx (e : Env) (dr : Dir) (sf : ℚ) : Ctx :=
  { log := e.log, solve := e.solve, popt := e.popt, objCI := e.obj0,
    etol := e.chi2isf e.alpha 1,
    bound := targetBound e.lb e.ub dr,
    defSF := match dr with | .up => sf | .down => -sf,
    bdEps := match dr with | .up => 1 / 100000 | .down => -(1 / 100000),
    dr := dr, ctol := e.ctol }

/-- The loop state just before the `while` loop: `i = 0`, `err = 0`,
`pstep = 0`, `pardr = popt`, `nextdr = popt - bd_eps`, with the initial
bound-crossing test applied to `nextdr`. -/
def initState (c : Ctx) : LoopState :=
  { i := 0, err := 0, pstep := 0, stepfrac := c.defSF, pardr := c.popt,
    nextdr := c.popt - c.bdEps, bdreach := bdCross c (c.popt - c.bdEps),
    var_dict := [], obj_dict := [], nsolves := 0 }

/-- `step_CI(pname, dr, stepfrac)` for one direction run. -/
def step_CI (e : Env) (dr : Dir) (sf : ℚ) : Except StepErr (Option StepResult) :=
  stepLoop (mkCtx e dr sf) (mkCtx e dr sf).ctol (initState (mkCtx e dr sf))

/-- The sequence of loop states actually traversed by the run: `stateAt c k` is
the state at the top of iteration `k` (`none` when the run has already
returned, or the guard fails, before iteration `k` begins). -/
def stateAt (c : Ctx) : ℕ → Option LoopState
  | 0 => if guard c (initState c) then some (initState c) else none
  | k + 1 =>
      match stateAt c k with
      | none => none
      | some s =>
          match stepBody c s with
          | .ret _ => none
          | .cont s2 => if guard c s2 then some s2 else none

/-- One profiled parameter as seen by `get_CI`: its name, optimal value,
declared bounds, and the solver oracle for each direction run. -/
structure ParamSpec where
  pname : String
  popt : ℚ
  lb : Option ℚ
  ub : Option ℚ
  solveUp : ℕ → Option ℚ
  solveDown : ℕ → Option ℚ

/-- A session: the abstract library functions, the baseline objective, and the
profiled parameters in input order. -/
structure Session where
  log : ℚ → ℚ
  chi2isf : ℚ → ℚ → ℚ
  obj0 : ℚ
  params : List ParamSpec

/-- The `step_CI` session data for one parameter and direction, as set up by
`get_CI` (`self.ctol = maxSteps`, `self.alpha = alpha`). -/
def envOf (sess : Session) (ms : ℕ) (alpha : ℚ) (p : ParamSpec) (dr : Dir) : Env :=
  { log := sess.log, chi2isf := sess.chi2isf, popt := p.popt, obj0 := sess.obj0,
    lb := p.lb, ub := p.ub, alpha := alpha, ctol := ms,
    solve := match dr with | .up => p.solveUp | .down => p.solveDown }

/-- The session-wide result assembled by `get_CI`: the lower/upper bound dicts
and the merged trajectory dicts (keys embed parameter, direction, iteration). -/
structure CIResult where
  parlb : List (String × XQ)
  parub : List (String × XQ)
  var_dict : List ((String × Dir × Int) × ℚ)
  obj_dict : List ((String × Dir × Int) × ℚ)
deriving DecidableEq, Repr

/-- Tag one direction run's trajectory dict with the parameter name and
direction, modelling the `'{pname}_{dr}_{i}'` keys. -/
def tagDict (pname : String) (dr : Dir) (d : List (Int × ℚ)) :
    List ((String × Dir × Int) × ℚ) :=
  d.map (fun kv => ((pname, dr, kv.1), kv.2))

/-- The body of `get_CI`'s parameter loop for one parameter: profile upward,
then downward.  Before each direction run the declared bound on that side is
printed with a float format spec, which raises `TypeError` when the bound is
Python `None`; a `None` returned by `step_CI` also raises `TypeError` when
unpacked into four names. -/
def profileOne (sess : Session) (ms : ℕ) (alpha sf : ℚ) (p : ParamSpec) :
    Except StepErr (StepResult × StepResult) :=
  match p.ub with
  | none => .error .typeError
  | some _ =>
      match step_CI (envOf sess ms alpha p .up) .up sf with
      | .error er => .error er
      | .ok none => .error .typeError
      | .ok (some ru) =>
          match p.lb with
          | none => .error .typeError
          | some _ =>
              match step_CI (envOf sess ms alpha p .down) .down sf with
              | .error er => .error er
              | .ok none => .error .typeError
              | .ok (some rd) => .ok (ru, rd)

/-- Fold one parameter's two direction results into the session accumulators:
overwrite its upper/lower bound entries and merge the trajectory dicts. -/
def accUpdate (acc : CIResult) (p : ParamSpec) (ru rd : StepResult) : CIResult :=
  { parub := dset acc.parub p.pname ru.bound,
    parlb := dset acc.parlb p.pname rd.bound,
    var_dict :=
      dmerge (dmerge acc.var_dict (tagDict p.pname .up ru.var_dict))
        (tagDict p.pname .down rd.var_dict),
    obj_dict :=
      dmerge (dmerge acc.obj_dict (tagDict p.pname .up ru.obj_dict))
        (tagDict p.pname .down rd.obj_dict) }

/-- The parameter loop of `get_CI` over the remaining parameters. -/
def getCIgo (sess : Session) (ms : ℕ) (alpha sf : ℚ) :
    List ParamSpec → CIResult → Except StepErr CIResult
  | [], acc => .ok acc
  | p :: ps, acc =>
      match profileOne sess ms alpha sf p with
      | .error er => .error er
      | .ok (ru, rd) => getCIgo sess ms alpha sf ps (accUpdate acc p ru rd)

/-- `get_CI(maxSteps, alpha, stepfrac)`: both bound dicts start as copies of
`self.popt`, then every parameter is profiled upward and downward. -/
def get_CI (sess : Session) (ms : ℕ) (alpha sf : ℚ) : Except StepErr CIResult :=
  getCIgo sess ms alpha sf sess.params
    { parlb := sess.params.map (fun p => (p.pname, XQ.fin p.popt)),
      parub := sess.params.map (fun p => (p.pname, XQ.fin p.popt)),
      var_dict := [], obj_dict := [] }

/-- The five session attributes listed in `to_json`
(`['alpha', 'parub', 'parlb', 'var_dict', 'obj_dict']`). -/
structure SessionAttrs where
  alpha : ℚ
  parub : List (String × XQ)
  parlb : List (String × XQ)
  var_dict : List ((String × Dir × Int) × ℚ)
  obj_dict : List ((String × Dir × Int) × ℚ)
deriving DecidableEq, Repr

/-- The single JSON object written by `to_json`.  Python's `json.dump` writes
floats with `repr` (round-tripping them exactly) and writes `inf` as
`Infinity`, which `json.load` reads back, so the document is modelled as an
exact record of the five values. -/
structure JsonDoc where
  alpha : ℚ
  parub : List (String × XQ)
  parlb : List (String × XQ)
  var_dict : List ((String × Dir × Int) × ℚ)
  obj_dict : List ((String × Dir × Int) × ℚ)
deriving DecidableEq, Repr

/-- `to_json(filename)`: serialize the five listed attributes. -/
def to_json (s : SessionAttrs) : JsonDoc :=
  { alpha := s.alpha, parub := s.parub, parlb := s.parlb,
    var_dict := s.var_dict, obj_dict := s.obj_dict }

/-- `load_json(filename)` on a session `t`: `setattr` every key found in the
document onto `t` (all five keys are always present). -/
def load_json (t : SessionAttrs) (f : JsonDoc) : SessionAttrs :=
  { t with alpha := f.alpha, parub := f.parub, parlb := f.parlb,
           var_dict := f.var_dict, obj_dict := f.obj_dict }

/-- The `dae` constructor argument: Python `None`, a string, or a non-string
object (with its truthiness). -/
inductive PyVal where
  | pynone
  | pystr (s : String)
  | pyobj (truthy : Bool)
deriving DecidableEq, Repr

/-- `isinstance(dae, str)`. -/
def isStr : PyVal → Bool
  | .pystr _ => true
  | _ => false

/-- Python truthiness of the `dae` argument (`None` and `''` are falsy). -/
def daeTruthy : PyVal → Bool
  | .pynone => false
  | .pystr s => decide (s ≠ "")
  | .pyobj t => t

/-- Exceptions raised by `__init__`'s discretization handling. -/
inductive InitErr where
  | typeError
deriving DecidableEq, Repr

/-- The discretization validation in `__init__`:
`if dae and presolve: if not isinstance(dae, str): raise TypeError`.
A string `dae` (recognized or not) passes on to the external
`TransformationFactory`; with a falsy `dae` or without `presolve` nothing is
checked. -/
def initDaeCheck (dae : PyVal) (presolve : Bool) : Except InitErr Unit :=
  if daeTruthy dae && presolve then
    if isStr dae then .ok () else .error .typeError
  else
    .ok ()

/-! ### Concrete sessions used by the witnesses and counterexamples -/

/-- Up run toward declared upper bound `10.05` from optimum `10`: the first
iteration steps to `10.1` and the projected next value `10.10499` crosses the
bound, so the run returns `10.1`, beyond the declared bound. -/
def e3 : Env :=
  { log := fun q => q, chi2isf := fun _ _ => 3841 / 1000, popt := 10, obj0 := 1,
    lb := some (1 / 10), ub := some (201 / 20), alpha := 1 / 20, ctol := 5,
    solve := fun _ => some 1 }

/-- Unbounded-above up run whose solver succeeds at call `0` and fails at
call `1`. -/
def e4 : Env :=
  { log := fun _ => 0, chi2isf := fun _ _ => 4, popt := 10, obj0 := 1,
    lb := some 1, ub := none, alpha := 1 / 20, ctol := 5,
    solve := fun n => if n = 0 then some 1 else none }

/-- Unbounded-above up run with `maxSteps = 2` whose solves all succeed
without converging: the budget is exhausted. -/
def e5 : Env :=
  { log := fun _ => 0, chi2isf := fun _ _ => 4, popt := 10, obj0 := 1,
    lb := some 1, ub := none, alpha := 1 / 20, ctol := 2,
    solve := fun _ => some 1 }

/-- Run whose very first solver call fails. -/
def e8 : Env :=
  { log := fun _ => 0, chi2isf := fun _ _ => 4, popt := 10, obj0 := 1,
    lb := some 1, ub := none, alpha := 1 / 20, ctol := 5,
    solve := fun _ => none }

/-- Down run from optimum `10` toward lower bound `1` whose solves all return
an objective of exactly `1`, so every `log` is exactly `0` (as `np.log(1.0)`
is): the progress quotient at `i = 1` is `0.0 / -0.0 = nan`. -/
def e9 : Env :=
  { log := fun _ => 0, chi2isf := fun _ _ => 4, popt := 10, obj0 := 1,
    lb := some 1, ub := some 100, alpha := 1 / 20, ctol := 5,
    solve := fun _ => some 1 }

/-- The same down run with a session whose objective logs are nonzero
(`log` injective on the values seen), exercising the generic case of the
step-fraction update. -/
def e9b : Env :=
  { log := fun x => x, chi2isf := fun _ _ => 4, popt := 10, obj0 := 1,
    lb := some 1, ub := some 100, alpha := 1 / 20, ctol := 5,
    solve := fun _ => some 1 }

/-- The loop state at the top of iteration `1` for the up runs of `e4`/`e5`. -/
def sUp1 : LoopState :=
  { i := 1, err := 0, pstep := 1 / 10, stepfrac := 21 / 2000, pardr := 101 / 10,
    nextdr := 1010499 / 100000, bdreach := false,
    var_dict := [(0, 101 / 10)], obj_dict := [(0, 1)], nsolves := 1 }

/-- The loop state at the top of iteration `1` for the down runs of
`e9` and `e9b`. -/
def sDn1 : LoopState :=
  { i := 1, err := 0, pstep := -(1 / 10), stepfrac := -(21 / 2000), pardr := 99 / 10,
    nextdr := 989501 / 100000, bdreach := false,
    var_dict := [(0, 99 / 10)], obj_dict := [(0, 1)], nsolves := 1 }

/-- The loop state at the top of iteration `2` of the `e9` down run: the `nan`
progress measure at iteration `1` took the reset branch, so the step fraction
is back to `def_SF = -0.01` instead of `1.05 * (-21/2000)`. -/
def sDn2 : LoopState :=
  { i := 2, err := 0, pstep := -(41 / 200), stepfrac := -(1 / 100), pardr := 1959 / 200,
    nextdr := 979501 / 100000, bdreach := false,
    var_dict := [(0, 99 / 10), (1, 1959 / 200)], obj_dict := [(0, 1), (1, 1)],
    nsolves := 2 }

/-- A one-parameter session whose up and down runs both stop on the declared
bounds `10.05` and `9.95` around the optimum `10`. -/
def pW : ParamSpec :=
  { pname := "p", popt := 10, lb := some (199 / 20), ub := some (201 / 20),
    solveUp := fun _ => some 1, solveDown := fun _ => some 1 }

/-- The session containing `pW` alone. -/
def sessW : Session :=
  { log := fun _ => 0, chi2isf := fun _ _ => 4, obj0 := 1, params := [pW] }

/-- The bound-reached up-run result produced by `e3` and by `sessW`'s upward
profile: one step to `10.1`. -/
def rUp : StepResult :=
  { bound := .fin (101 / 10), states := [], var_dict := [(0, 101 / 10)],
    obj_dict := [(0, 1)], exit := .boundReached, nsolves := 1 }

/-- The bound-reached down-run result produced by `sessW`'s downward profile:
one step to `9.9`. -/
def rDn : StepResult :=
  { bound := .fin (99 / 10), states := [], var_dict := [(0, 99 / 10)],
    obj_dict := [(0, 1)], exit := .boundReached, nsolves := 1 }

/-- The `get_CI` output for `sessW`. -/
def resW : CIResult :=
  { parlb := [("p", .fin (99 / 10))], parub := [("p", .fin (101 / 10))],
    var_dict := [(("p", .up, 0), 101 / 10), (("p", .down, 0), 99 / 10)],
    obj_dict := [(("p", .up, 0), 1), (("p", .down, 0), 1)] }

/-! ### Dictionary lemmas -/

theorem dget_dset_self {α β : Type} [DecidableEq α] (d : List (α × β)) (k : α) (v : β) :
    dget (dset d k v) k = some v := by
  induction d with
  | nil => simp [dset, dget]
  | cons kv t ih =>
      obtain ⟨k1, v1⟩ := kv
      by_cases h : k1 = k
      · subst h; simp [dset, dget]
      · simp only [dset, if_neg h]
        simp only [dget, if_neg h, ih]

theorem dget_dset_ne {α β : Type} [DecidableEq α] (d : List (α × β)) (k j : α) (v : β)
    (h : j ≠ k) : dget (dset d k v) j = dget d j := by
  induction d with
  | nil => simp [dset, dget, Ne.symm h]
  | cons kv t ih =>
      obtain ⟨k1, v1⟩ := kv
      by_cases h1 : k1 = k
      · subst h1
        simp [dset, dget, Ne.symm h]
      · simp only [dset, if_neg h1, dget, ih]

theorem isSome_dget_dset {α β : Type} [DecidableEq α] (d : List (α × β)) (k j : α) (v : β) :
    (dget (dset d k v) j).isSome = true ↔ j = k ∨ (dget d j).isSome = true := by
  by_cases h : j = k
  · subst h; simp [dget_dset_self]
  · rw [dget_dset_ne d k j v h]; simp [h]

theorem dget_dpop_self {α β : Type} [DecidableEq α] (d : List (α × β)) (k : α) :
    dget (dpop d k) k = none := by
  induction d with
  | nil => simp [dpop, dget]
  | cons kv t ih =>
      obtain ⟨k1, v1⟩ := kv
      by_cases h : k1 = k
      · simp only [dpop, if_pos h, ih]
      · simp only [dpop, if_neg h, dget, if_neg h, ih]

theorem dget_dpop_ne {α β : Type} [DecidableEq α] (d : List (α × β)) (k j : α) (h : j ≠ k) :
    dget (dpop d k) j = dget d j := by
  induction d with
  | nil => simp [dpop]
  | cons kv t ih =>
      obtain ⟨k1, v1⟩ := kv
      by_cases h1 : k1 = k
      · subst h1
        simp [dpop, dget, ih, Ne.symm h]
      · simp only [dpop, if_neg h1, dget, ih]

/-! ### Shape lemmas for the loop body -/

theorem guard_iff (c : Ctx) (s : LoopState) :
    guard c s = true ↔ s.i < c.ctol ∧ s.err ≤ c.etol ∧ s.bdreach = false := by
  simp [guard, Bool.and_eq_true, decide_eq_true_eq, Bool.not_eq_true', and_assoc]

theorem updSF_pos (c : Ctx) (sf : ℚ) (d : DVal) (h1 : 0 < sf) (h2 : 0 < c.defSF) :
    0 < updSF c sf d := by
  unfold updSF
  split
  · exact mul_pos (by norm_num) h1
  · exact h2

theorem updSF_neg (c : Ctx) (sf : ℚ) (d : DVal) (h1 : sf < 0) (h2 : c.defSF < 0) :
    updSF c sf d < 0 := by
  unfold updSF
  split
  · exact mul_neg_of_pos_of_neg (by norm_num) h1
  · exact h2

theorem afterD_cont (c : Ctx) (s : LoopState) (q err : ℚ) (d : DVal) (pstep pardr : ℚ)
    (vd od : List (Int × ℚ)) (s2 : LoopState)
    (h : afterD c s q err d pstep pardr vd od = .cont s2) :
    s2 = { i := s.i + 1, err := err, pstep := pstep, stepfrac := updSF c s.stepfrac d,
           pardr := pardr, nextdr := s.nextdr + c.popt * updSF c s.stepfrac d,
           bdreach := false,
           var_dict := vd, obj_dict := od, nsolves := s.nsolves + 1 } ∧
    bdCross c (s.nextdr + c.popt * updSF c s.stepfrac d) = false ∧
    ¬ c.etol < err ∧ s.i ≠ c.ctol - 1 := by
  by_cases h1 : c.etol < err
  · simp [afterD, h1] at h
  · by_cases h2 : s.i = c.ctol - 1
    · simp [afterD, h1, h2] at h
    · by_cases h3 : bdCross c (s.nextdr + c.popt * updSF c s.stepfrac d) = true
      · simp [afterD, h1, h2, h3] at h
      · simp only [Bool.not_eq_true] at h3
        simp [afterD, h1, h2, h3] at h
        exact ⟨h.symm, h3, h1, h2⟩

theorem afterD_ret (c : Ctx) (s : LoopState) (q err : ℚ) (d : DVal) (pstep pardr : ℚ)
    (vd od : List (Int × ℚ)) (r : Except StepErr (Option StepResult))
    (h : afterD c s q err d pstep pardr vd od = .ret r) :
    (c.etol < err ∧
      r = .ok (some { bound := .fin pardr, states := [], var_dict := vd, obj_dict := od,
                      exit := .converged, nsolves := s.nsolves + 1 })) ∨
    (¬ c.etol < err ∧ s.i = c.ctol - 1 ∧
      r = .ok (some { bound := signedInf c.dr, states := [], var_dict := vd, obj_dict := od,
                      exit := .budget, nsolves := s.nsolves + 1 })) ∨
    (¬ c.etol < err ∧ s.i ≠ c.ctol - 1 ∧
      bdCross c (s.nextdr + c.popt * updSF c s.stepfrac d) = true ∧
      r = .ok (some { bound := .fin pardr, states := [], var_dict := vd, obj_dict := od,
                      exit := .boundReached, nsolves := s.nsolves + 1 })) := by
  by_cases h1 : c.etol < err
  · left
    refine ⟨h1, ?_⟩
    simp [afterD, h1] at h
    exact h.symm
  · by_cases h2 : s.i = c.ctol - 1
    · right; left
      refine ⟨h1, h2, ?_⟩
      simp [afterD, h1, h2] at h
      exact h.symm
    · by_cases h3 : bdCross c (s.nextdr + c.popt * updSF c s.stepfrac d) = true
      · right; right
        refine ⟨h1, h2, h3, ?_⟩
        simp [afterD, h1, h2, h3] at h
        exact h.symm
      · simp only [Bool.not_eq_true] at h3
        simp [afterD, h1, h2, h3] at h

theorem stepBody_solve_none (c : Ctx) (s : LoopState) (h : c.solve s.nsolves = none) :
    stepBody c s = .ret (exceptBranch c s s.var_dict s.obj_dict (s.nsolves + 1)) := by
  unfold stepBody
  rw [h]
  rfl

theorem stepBody_cont (c : Ctx) (s s2 : LoopState) (h : stepBody c s = .cont s2) :
    ∃ q d, c.solve s.nsolves = some q ∧
      (0 < s.i → ∃ qp, dget s.obj_dict ((s.i : Int) - 1) = some qp ∧
        d = dComp c qp q s.stepfrac) ∧
      (s.i = 0 → d = .fin (2 * (c.log q - c.log c.objCI))) ∧
      s2 = { i := s.i + 1, err := 2 * (c.log q - c.log c.objCI),
             pstep := s.pstep + s.stepfrac * c.popt,
             stepfrac := updSF c s.stepfrac d,
             pardr := c.popt + (s.pstep + s.stepfrac * c.popt),
             nextdr := s.nextdr + c.popt * updSF c s.stepfrac d,
             bdreach := false,
             var_dict := dset s.var_dict (s.i : Int)
               (c.popt + (s.pstep + s.stepfrac * c.popt)),
             obj_dict := dset s.obj_dict (s.i : Int) q,
             nsolves := s.nsolves + 1 } ∧
      bdCross c (s.nextdr + c.popt * updSF c s.stepfrac d) = false ∧
      ¬ c.etol < 2 * (c.log q - c.log c.objCI) := by
  cases hq : c.solve s.nsolves with
  | none =>
      rw [stepBody_solve_none c s hq] at h
      simp at h
  | some q =>
      unfold stepBody at h
      rw [hq] at h
      unfold stepDispatch solveOk at h
      by_cases hi : 0 < s.i
      · simp only [if_pos hi] at h
        have hne : ((s.i : Int) - 1) ≠ (s.i : Int) := by omega
        cases hqp : dget (dset s.obj_dict (s.i : Int) q) ((s.i : Int) - 1) with
        | none => rw [hqp] at h; simp at h
        | some qp =>
            rw [hqp] at h
            obtain ⟨hs2, hbd, herr, -⟩ := afterD_cont c s q _ _ _ _ _ _ s2 h
            rw [dget_dset_ne s.obj_dict (s.i : Int) ((s.i : Int) - 1) q hne] at hqp
            exact ⟨q, dComp c qp q s.stepfrac, rfl, fun _ => ⟨qp, hqp, rfl⟩,
              fun h0 => absurd h0 (by omega), hs2, hbd, herr⟩
      · simp only [if_neg hi] at h
        obtain ⟨hs2, hbd, herr, -⟩ := afterD_cont c s q _ _ _ _ _ _ s2 h
        exact ⟨q, .fin (2 * (c.log q - c.log c.objCI)), rfl,
          fun h0 => absurd h0 hi, fun _ => rfl, hs2, hbd, herr⟩

theorem stepBody_boundReached (c : Ctx) (s : LoopState) (r : StepResult)
    (h : stepBody c s = .ret (.ok (some r))) (he : r.exit = .boundReached) :
    r.bound = .fin (c.popt + (s.pstep + s.stepfrac * c.popt)) ∧
    ∃ d, bdCross c (s.nextdr + c.popt * updSF c s.stepfrac d) = true := by
  cases hq : c.solve s.nsolves with
  | none =>
      rw [stepBody_solve_none c s hq] at h
      simp only [BodyOut.ret.injEq] at h
      unfold exceptBranch at h
      cases hv : dget s.var_dict ((s.i : Int) - 1) with
      | none => rw [hv] at h; simp at h
      | some v =>
          rw [hv] at h
          simp only [Except.ok.injEq, Option.some.injEq] at h
          rw [← h] at he
          simp at he
  | some q =>
      unfold stepBody at h
      rw [hq] at h
      unfold stepDispatch solveOk at h
      by_cases hi : 0 < s.i
      · simp only [if_pos hi] at h
        cases hqp : dget (dset s.obj_dict (s.i : Int) q) ((s.i : Int) - 1) with
        | none =>
            rw [hqp] at h
            simp only [BodyOut.ret.injEq] at h
            unfold exceptBranch at h
            cases hv : dget (dset s.var_dict (s.i : Int)
                (c.popt + (s.pstep + s.stepfrac * c.popt))) ((s.i : Int) - 1) with
            | none => rw [hv] at h; simp at h
            | some v =>
                rw [hv] at h
                simp only [Except.ok.injEq, Option.some.injEq] at h
                rw [← h] at he
                simp at he
        | some qp =>
            rw [hqp] at h
            rcases afterD_ret c s q _ _ _ _ _ _ _ h with ⟨-, hr⟩ | ⟨-, -, hr⟩ | ⟨-, -, hbd, hr⟩
            · simp only [Except.ok.injEq, Option.some.injEq] at hr
              rw [hr] at he; simp at he
            · simp only [Except.ok.injEq, Option.some.injEq] at hr
              rw [hr] at he; simp at he
            · simp only [Except.ok.injEq, Option.some.injEq] at hr
              rw [hr]
              exact ⟨rfl, dComp c qp q s.stepfrac, hbd⟩
      · simp only [if_neg hi] at h
        rcases afterD_ret c s q _ _ _ _ _ _ _ h with ⟨-, hr⟩ | ⟨-, -, hr⟩ | ⟨-, -, hbd, hr⟩
        · simp only [Except.ok.injEq, Option.some.injEq] at hr
          rw [hr] at he; simp at he
        · simp only [Except.ok.injEq, Option.some.injEq] at hr
          rw [hr] at he; simp at he
        · simp only [Except.ok.injEq, Option.some.injEq] at hr
          rw [hr]
          exact ⟨rfl, .fin (2 * (c.log q - c.log c.objCI)), hbd⟩

theorem stepBody_budget (c : Ctx) (s : LoopState) (q : ℚ)
    (hq : c.solve s.nsolves = some q)
    (hqp : 0 < s.i → (dget s.obj_dict ((s.i : Int) - 1)).isSome = true)
    (herr : ¬ c.etol < 2 * (c.log q - c.log c.objCI))
    (hi : s.i = c.ctol - 1) :
    stepBody c s = .ret (.ok (some
      { bound := signedInf c.dr, states := [],
        var_dict := dset s.var_dict (s.i : Int) (c.popt + (s.pstep + s.stepfrac * c.popt)),
        obj_dict := dset s.obj_dict (s.i : Int) q,
        exit := .budget, nsolves := s.nsolves + 1 })) := by
  unfold stepBody
  rw [hq]
  unfold stepDispatch solveOk
  by_cases h0 : 0 < s.i
  · simp only [if_pos h0]
    have hne : ((s.i : Int) - 1) ≠ (s.i : Int) := by omega
    rw [dget_dset_ne s.obj_dict (s.i : Int) ((s.i : Int) - 1) q hne]
    cases hlk : dget s.obj_dict ((s.i : Int) - 1) with
    | none => rw [hlk] at hqp; simp at hqp; exact absurd hqp (by omega)
    | some qp => simp [afterD, herr, hi]
  · simp only [if_neg h0]
    simp [afterD, herr, hi]

/-! ### The trajectory of reached states -/

theorem stateAt_zero (c : Ctx) (s : LoopState) (h : stateAt c 0 = some s) :
    s = initState c ∧ guard c (initState c) = true := by
  unfold stateAt at h
  split at h
  · cases h; exact ⟨rfl, by assumption⟩
  · cases h

theorem stateAt_succ (c : Ctx) (k : ℕ) (s2 : LoopState)
    (h : stateAt c (k + 1) = some s2) :
    ∃ s, stateAt c k = some s ∧ stepBody c s = .cont s2 ∧ guard c s2 = true := by
  unfold stateAt at h
  cases hs : stateAt c k with
  | none => rw [hs] at h; simp at h
  | some s =>
      rw [hs] at h
      dsimp only at h
      cases hb : stepBody c s with
      | ret r => rw [hb] at h; simp at h
      | cont s3 =>
          rw [hb] at h
          dsimp only at h
          split at h
          · cases h; exact ⟨s, rfl, hb, by assumption⟩
          · cases h

theorem stateAt_guard (c : Ctx) (k : ℕ) (s : LoopState) (h : stateAt c k = some s) :
    guard c s = true := by
  cases k with
  | zero =>
      obtain ⟨rfl, hg⟩ := stateAt_zero c s h
      exact hg
  | succ k =>
      obtain ⟨-, -, -, hg⟩ := stateAt_succ c k s h
      exact hg

theorem stepLoop_succ (c : Ctx) (fuel : ℕ) (s : LoopState) :
    stepLoop c (fuel + 1) s =
      if guard c s then
        (match stepBody c s with
         | .ret r => r
         | .cont s2 => stepLoop c fuel s2)
      else .ok none := rfl

theorem stepLoop_shift (c : Ctx) :
    ∀ k s, stateAt c k = some s → ∀ fuel,
      stepLoop c (k + fuel + 1) (initState c) = stepLoop c (fuel + 1) s := by
  intro k
  induction k with
  | zero =>
      intro s h fuel
      obtain ⟨rfl, -⟩ := stateAt_zero c s h
      simp
  | succ k ih =>
      intro s h fuel
      obtain ⟨s1, hs1, hb, -⟩ := stateAt_succ c k s h
      have he : k + 1 + fuel + 1 = k + (fuel + 1) + 1 := by omega
      rw [he, ih s1 hs1 (fuel + 1)]
      have hg := stateAt_guard c k s1 hs1
      show stepLoop c (fuel + 1 + 1) s1 = stepLoop c (fuel + 1) s
      rw [stepLoop_succ c (fuel + 1) s1]
      simp [hg, hb]

theorem stateAt_inv (c : Ctx) :
    ∀ k s, stateAt c k = some s →
      s.i = k ∧ s.nsolves = k ∧
      (∀ j : Int, (dget s.var_dict j).isSome = true ↔ 0 ≤ j ∧ j < (k : Int)) ∧
      (∀ j : Int, (dget s.obj_dict j).isSome = true ↔ 0 ≤ j ∧ j < (k : Int)) ∧
      (0 < c.defSF → 0 < s.stepfrac) ∧ (c.defSF < 0 → s.stepfrac < 0) := by
  intro k
  induction k with
  | zero =>
      intro s h
      obtain ⟨rfl, -⟩ := stateAt_zero c s h
      refine ⟨rfl, rfl, ?_, ?_, fun h => h, fun h => h⟩
      · intro j; simp [initState, dget]
      · intro j; simp [initState, dget]
  | succ k ih =>
      intro s2 h
      obtain ⟨s, hs, hb, -⟩ := stateAt_succ c k s2 h
      obtain ⟨hi, hn, hvd, hod, hp, hm⟩ := ih s hs
      obtain ⟨q, d, -, -, -, hshape, -, -⟩ := stepBody_cont c s s2 hb
      subst hshape
      refine ⟨by simp [hi], by simp [hn], ?_, ?_, ?_, ?_⟩
      · intro j
        simp only
        rw [isSome_dget_dset]
        rw [hvd j, hi]
        omega
      · intro j
        simp only
        rw [isSome_dget_dset]
        rw [hod j, hi]
        omega
      · intro hdef
        exact updSF_pos c s.stepfrac d (hp hdef) hdef
      · intro hdef
        exact updSF_neg c s.stepfrac d (hm hdef) hdef

theorem run_of_ret (c : Ctx) (k : ℕ) (s : LoopState)
    (r : Except StepErr (Option StepResult))
    (hs : stateAt c k = some s) (hb : stepBody c s = .ret r) :
    stepLoop c c.ctol (initState c) = r := by
  have hg := stateAt_guard c k s hs
  have hik : s.i = k := (stateAt_inv c k s hs).1
  have hk : k < c.ctol := by
    have := (guard_iff c s).mp hg
    omega
  have he : c.ctol = k + (c.ctol - k - 1) + 1 := by omega
  rw [he, stepLoop_shift c k s hs (c.ctol - k - 1)]
  rw [stepLoop_succ c (c.ctol - k - 1) s]
  simp [hg, hb]

theorem step_CI_eq (e : Env) (dr : Dir) (sf : ℚ) :
    step_CI e dr sf =
      stepLoop (mkCtx e dr sf) (mkCtx e dr sf).ctol (initState (mkCtx e dr sf)) := rfl

theorem stepLoop_guard_false (c : Ctx) (s : LoopState) (fuel : ℕ)
    (hg : guard c s = false) : stepLoop c fuel s = .ok none := by
  cases fuel with
  | zero => rfl
  | succ fuel => rw [stepLoop_succ]; simp [hg]

theorem stepLoop_ret_src (c : Ctx) :
    ∀ fuel k s x, stateAt c k = some s → stepLoop c fuel s = x → x ≠ .ok none →
      ∃ m t, stateAt c m = some t ∧ stepBody c t = .ret x := by
  intro fuel
  induction fuel with
  | zero =>
      intro k s x hst hrun hne
      exact absurd hrun.symm hne
  | succ fuel ih =>
      intro k s x hst hrun hne
      rw [stepLoop_succ] at hrun
      have hg := stateAt_guard c k s hst
      rw [if_pos hg] at hrun
      cases hb : stepBody c s with
      | ret r0 =>
          rw [hb] at hrun
          dsimp only at hrun
          exact ⟨k, s, hst, by rw [hb, hrun]⟩
      | cont s2 =>
          rw [hb] at hrun
          dsimp only at hrun
          by_cases hg2 : guard c s2 = true
          · have hst2 : stateAt c (k + 1) = some s2 := by
              unfold stateAt
              rw [hst]
              dsimp only
              rw [hb]
              dsimp only
              rw [if_pos hg2]
            exact ih (k + 1) s2 x hst2 hrun hne
          · rw [stepLoop_guard_false c s2 fuel (Bool.not_eq_true _ ▸ hg2)] at hrun
            exact absurd hrun.symm hne

theorem run_ret_exists (e : Env) (dr : Dir) (sf : ℚ)
    (x : Except StepErr (Option StepResult))
    (h : step_CI e dr sf = x) (hne : x ≠ .ok none) :
    ∃ m t, stateAt (mkCtx e dr sf) m = some t ∧
      stepBody (mkCtx e dr sf) t = .ret x := by
  set c := mkCtx e dr sf with hc
  by_cases hg0 : guard c (initState c) = true
  · have hst0 : stateAt c 0 = some (initState c) := by
      unfold stateAt
      rw [if_pos hg0]
    exact stepLoop_ret_src c c.ctol 0 (initState c) x hst0 h hne
  · rw [step_CI_eq, stepLoop_guard_false c (initState c) c.ctol
      (Bool.not_eq_true _ ▸ hg0)] at h
    exact absurd h.symm hne

theorem stepBody_ret_nsolves (c : Ctx) (s : LoopState) (r : StepResult)
    (h : stepBody c s = .ret (.ok (some r))) : r.nsolves = s.nsolves + 1 := by
  cases hq : c.solve s.nsolves with
  | none =>
      rw [stepBody_solve_none c s hq] at h
      simp only [BodyOut.ret.injEq] at h
      unfold exceptBranch at h
      cases hv : dget s.var_dict ((s.i : Int) - 1) <;> rw [hv] at h
      · simp at h
      · simp only [Except.ok.injEq, Option.some.injEq] at h
        rw [← h]
  | some q =>
      unfold stepBody at h
      rw [hq] at h
      unfold stepDispatch solveOk at h
      by_cases hi : 0 < s.i
      · simp only [if_pos hi] at h
        cases hqp : dget (dset s.obj_dict (s.i : Int) q) ((s.i : Int) - 1) <;>
          rw [hqp] at h
        · simp only [BodyOut.ret.injEq] at h
          unfold exceptBranch at h
          cases hv : dget (dset s.var_dict (s.i : Int)
              (c.popt + (s.pstep + s.stepfrac * c.popt))) ((s.i : Int) - 1) <;>
            rw [hv] at h
          · simp at h
          · simp only [Except.ok.injEq, Option.some.injEq] at h
            rw [← h]
        · rcases afterD_ret c s q _ _ _ _ _ _ _ h with ⟨-, hr⟩ | ⟨-, -, hr⟩ | ⟨-, -, -, hr⟩ <;>
            · simp only [Except.ok.injEq, Option.some.injEq] at hr
              rw [hr]
      · simp only [if_neg hi] at h
        rcases afterD_ret c s q _ _ _ _ _ _ _ h with ⟨-, hr⟩ | ⟨-, -, hr⟩ | ⟨-, -, -, hr⟩ <;>
          · simp only [Except.ok.injEq, Option.some.injEq] at hr
            rw [hr]

theorem stepLoop_nsolves_le (c : Ctx) :
    ∀ fuel s r, s.nsolves = s.i → stepLoop c fuel s = .ok (some r) →
      r.nsolves ≤ c.ctol := by
  intro fuel
  induction fuel with
  | zero => intro s r hns hr; simp [stepLoop] at hr
  | succ fuel ih =>
      intro s r hns hr
      rw [stepLoop_succ] at hr
      by_cases hg : guard c s = true
      · rw [if_pos hg] at hr
        have hi : s.i < c.ctol := ((guard_iff c s).mp hg).1
        cases hb : stepBody c s with
        | cont s2 =>
            rw [hb] at hr
            dsimp only at hr
            obtain ⟨q, d, -, -, -, hs2, -, -⟩ := stepBody_cont c s s2 hb
            apply ih s2 r _ hr
            rw [hs2]
            simp [hns]
        | ret r0 =>
            rw [hb] at hr
            dsimp only at hr
            subst hr
            have := stepBody_ret_nsolves c s r hb
            omega
      · rw [if_neg hg] at hr
        simp at hr

theorem stepLoop_solve_congr (c : Ctx) (g : ℕ → Option ℚ)
    (hagree : ∀ j, j < c.ctol → c.solve j = g j) :
    ∀ fuel s, s.nsolves = s.i →
      stepLoop { c with solve := g } fuel s = stepLoop c fuel s := by
  intro fuel
  induction fuel with
  | zero => intro s hns; rfl
  | succ fuel ih =>
      intro s hns
      have hgd : guard { c with solve := g } s = guard c s := rfl
      rw [stepLoop_succ, stepLoop_succ, hgd]
      by_cases hg : guard c s = true
      · rw [if_pos hg, if_pos hg]
        have hi : s.i < c.ctol := ((guard_iff c s).mp hg).1
        have hsb : stepBody { c with solve := g } s = stepBody c s := by
          unfold stepBody
          have hsv : ({ c with solve := g } : Ctx).solve s.nsolves =
              c.solve s.nsolves := by
            show g s.nsolves = c.solve s.nsolves
            rw [hagree s.nsolves (by omega)]
          rw [hsv]
          rfl
        rw [hsb]
        cases hb : stepBody c s with
        | ret r0 => rfl
        | cont s2 =>
            dsimp only
            obtain ⟨q, d, -, -, -, hs2, -, -⟩ := stepBody_cont c s s2 hb
            apply ih s2
            rw [hs2]
            simp [hns]
      · rw [if_neg hg, if_neg hg]

/-! ### Direction lemmas for bound-reached exits -/

theorem stepLoop_up_ge (c : Ctx) (hdr : c.dr = .up) (hdef : 0 < c.defSF)
    (hnb : c.bound ≠ .ninf) :
    ∀ fuel s r, 0 < s.stepfrac → (0 ≤ c.popt → 0 ≤ s.pstep) →
      s.bdreach = bdCross c s.nextdr →
      stepLoop c fuel s = .ok (some r) → r.exit = .boundReached →
      ∃ x, r.bound = .fin x ∧ c.popt ≤ x := by
  intro fuel
  induction fuel with
  | zero => intro s r _ _ _ hr _; simp [stepLoop] at hr
  | succ fuel ih =>
      intro s r hsfp hps hbr hr hex
      rw [stepLoop_succ] at hr
      by_cases hg : guard c s = true
      · rw [if_pos hg] at hr
        cases hb : stepBody c s with
        | cont s2 =>
            rw [hb] at hr
            dsimp only at hr
            obtain ⟨q, d, -, -, -, hs2, hbd, -⟩ := stepBody_cont c s s2 hb
            apply ih s2 r _ _ _ hr hex
            · rw [hs2]; exact updSF_pos c s.stepfrac d hsfp hdef
            · rw [hs2]
              intro hp
              exact add_nonneg (hps hp) (mul_nonneg hsfp.le hp)
            · rw [hs2]
              exact hbd.symm
        | ret r0 =>
            rw [hb] at hr
            dsimp only at hr
            subst hr
            obtain ⟨hbound, d, hcross⟩ := stepBody_boundReached c s r hb hex
            refine ⟨c.popt + (s.pstep + s.stepfrac * c.popt), hbound, ?_⟩
            rcases le_or_lt 0 c.popt with hp | hp
            · have h1 : 0 ≤ s.pstep + s.stepfrac * c.popt :=
                add_nonneg (hps hp) (mul_nonneg hsfp.le hp)
              linarith
            · exfalso
              have hsf2 : 0 < updSF c s.stepfrac d := updSF_pos c s.stepfrac d hsfp hdef
              have hlt : s.nextdr + c.popt * updSF c s.stepfrac d < s.nextdr := by
                nlinarith
              have hbf : bdCross c s.nextdr = false := by
                rw [← hbr]
                exact ((guard_iff c s).mp hg).2.2
              unfold bdCross at hcross hbf
              rw [hdr] at hcross hbf
              dsimp only at hcross hbf
              cases hbv : c.bound with
              | ninf => exact hnb hbv
              | pinf => rw [hbv] at hcross; simp [qGT] at hcross
              | fin b =>
                  rw [hbv] at hcross hbf
                  simp only [qGT, decide_eq_true_eq] at hcross
                  simp only [qGT, decide_eq_false_iff_not, not_lt] at hbf
                  linarith
      · rw [if_neg hg] at hr
        simp at hr

theorem stepLoop_down_le (c : Ctx) (hdr : c.dr = .down) (hdef : c.defSF < 0)
    (hnb : c.bound ≠ .pinf) :
    ∀ fuel s r, s.stepfrac < 0 → (0 ≤ c.popt → s.pstep ≤ 0) →
      s.bdreach = bdCross c s.nextdr →
      stepLoop c fuel s = .ok (some r) → r.exit = .boundReached →
      ∃ x, r.bound = .fin x ∧ x ≤ c.popt := by
  intro fuel
  induction fuel with
  | zero => intro s r _ _ _ hr _; simp [stepLoop] at hr
  | succ fuel ih =>
      intro s r hsfn hps hbr hr hex
      rw [stepLoop_succ] at hr
      by_cases hg : guard c s = true
      · rw [if_pos hg] at hr
        cases hb : stepBody c s with
        | cont s2 =>
            rw [hb] at hr
            dsimp only at hr
            obtain ⟨q, d, -, -, -, hs2, hbd, -⟩ := stepBody_cont c s s2 hb
            apply ih s2 r _ _ _ hr hex
            · rw [hs2]; exact updSF_neg c s.stepfrac d hsfn hdef
            · rw [hs2]
              intro hp
              exact add_nonpos (hps hp) (mul_nonpos_of_nonpos_of_nonneg hsfn.le hp)
            · rw [hs2]
              exact hbd.symm
        | ret r0 =>
            rw [hb] at hr
            dsimp only at hr
            subst hr
            obtain ⟨hbound, d, hcross⟩ := stepBody_boundReached c s r hb hex
            refine ⟨c.popt + (s.pstep + s.stepfrac * c.popt), hbound, ?_⟩
            rcases le_or_lt 0 c.popt with hp | hp
            · have h1 : s.pstep + s.stepfrac * c.popt ≤ 0 :=
                add_nonpos (hps hp) (mul_nonpos_of_nonpos_of_nonneg hsfn.le hp)
              linarith
            · exfalso
              have hsf2 : updSF c s.stepfrac d < 0 := updSF_neg c s.stepfrac d hsfn hdef
              have hlt : s.nextdr < s.nextdr + c.popt * updSF c s.stepfrac d := by
                nlinarith
              have hbf : bdCross c s.nextdr = false := by
                rw [← hbr]
                exact ((guard_iff c s).mp hg).2.2
              unfold bdCross at hcross hbf
              rw [hdr] at hcross hbf
              dsimp only at hcross hbf
              cases hbv : c.bound with
              | pinf => exact hnb hbv
              | ninf => rw [hbv] at hcross; simp [qLT] at hcross
              | fin b =>
                  rw [hbv] at hcross hbf
                  simp only [qLT, decide_eq_true_eq] at hcross
                  simp only [qLT, decide_eq_false_iff_not, not_lt] at hbf
                  linarith
      · rw [if_neg hg] at hr
        simp at hr

theorem step_CI_up_ge (e : Env) (sf : ℚ) (r : StepResult) (hsf : 0 < sf)
    (h : step_CI e .up sf = .ok (some r)) (hex : r.exit = .boundReached) :
    ∃ x, r.bound = .fin x ∧ e.popt ≤ x := by
  have hnb : (mkCtx e .up sf).bound ≠ .ninf := by
    show targetBound e.lb e.ub .up ≠ .ninf
    cases hub : e.ub with
    | none => simp [targetBound]
    | some b => by_cases hb : b = 0 <;> simp [targetBound, hb]
  exact stepLoop_up_ge (mkCtx e .up sf) rfl hsf hnb (mkCtx e .up sf).ctol
    (initState (mkCtx e .up sf)) r hsf (fun _ => le_refl 0) rfl h hex

theorem step_CI_down_le (e : Env) (sf : ℚ) (r : StepResult) (hsf : 0 < sf)
    (h : step_CI e .down sf = .ok (some r)) (hex : r.exit = .boundReached) :
    ∃ x, r.bound = .fin x ∧ x ≤ e.popt := by
  have hdef : (mkCtx e .down sf).defSF < 0 := by
    show -sf < 0
    linarith
  have hnb : (mkCtx e .down sf).bound ≠ .pinf := by
    show targetBound e.lb e.ub .down ≠ .pinf
    cases hlb : e.lb with
    | none => simp [targetBound]
    | some b => by_cases hb : b = 0 <;> simp [targetBound, hb]
  exact stepLoop_down_le (mkCtx e .down sf) rfl hdef hnb (mkCtx e .down sf).ctol
    (initState (mkCtx e .down sf)) r hdef (fun _ => le_refl 0) rfl h hex

/-! ### Lookup lemmas for the orchestrator -/

theorem profileOne_ok (sess : Session) (ms : ℕ) (alpha sf : ℚ) (p : ParamSpec)
    (ru rd : StepResult) (h : profileOne sess ms alpha sf p = .ok (ru, rd)) :
    step_CI (envOf sess ms alpha p .up) .up sf = .ok (some ru) ∧
    step_CI (envOf sess ms alpha p .down) .down sf = .ok (some rd) := by
  unfold profileOne at h
  cases hub : p.ub <;> rw [hub] at h
  · simp at h
  · cases hu : step_CI (envOf sess ms alpha p .up) .up sf <;> rw [hu] at h
    · simp at h
    · rename_i ou
      cases ou with
      | none => simp at h
      | some ru2 =>
          dsimp only at h
          cases hlb : p.lb <;> rw [hlb] at h
          · simp at h
          · cases hd : step_CI (envOf sess ms alpha p .down) .down sf <;> rw [hd] at h
            · simp at h
            · rename_i od
              cases od with
              | none => simp at h
              | some rd2 =>
                  simp only [Except.ok.injEq, Prod.mk.injEq] at h
                  obtain ⟨h1, h2⟩ := h
                  subst h1
                  subst h2
                  exact ⟨rfl, rfl⟩

theorem getCIgo_preserve (sess : Session) (ms : ℕ) (alpha sf : ℚ) :
    ∀ ps acc res n, getCIgo sess ms alpha sf ps acc = .ok res →
      n ∉ ps.map ParamSpec.pname →
      dget res.parub n = dget acc.parub n ∧ dget res.parlb n = dget acc.parlb n := by
  intro ps
  induction ps with
  | nil =>
      intro acc res n h hn
      simp only [getCIgo, Except.ok.injEq] at h
      subst h
      exact ⟨rfl, rfl⟩
  | cons p t ih =>
      intro acc res n h hn
      simp only [List.map_cons, List.mem_cons, not_or] at hn
      obtain ⟨hn1, hn2⟩ := hn
      unfold getCIgo at h
      cases hpo : profileOne sess ms alpha sf p <;> rw [hpo] at h
      · simp at h
      · rename_i pr
        obtain ⟨ru, rd⟩ := pr
        dsimp only at h
        obtain ⟨h1, h2⟩ := ih (accUpdate acc p ru rd) res n h hn2
        constructor
        · rw [h1]
          exact dget_dset_ne acc.parub p.pname n ru.bound hn1
        · rw [h2]
          exact dget_dset_ne acc.parlb p.pname n rd.bound hn1

theorem getCIgo_lookup (sess : Session) (ms : ℕ) (alpha sf : ℚ) :
    ∀ ps acc res p, getCIgo sess ms alpha sf ps acc = .ok res →
      (ps.map ParamSpec.pname).Nodup → p ∈ ps →
      ∃ ru rd, step_CI (envOf sess ms alpha p .up) .up sf = .ok (some ru) ∧
        step_CI (envOf sess ms alpha p .down) .down sf = .ok (some rd) ∧
        dget res.parub p.pname = some ru.bound ∧
        dget res.parlb p.pname = some rd.bound := by
  intro ps
  induction ps with
  | nil => intro acc res p h hnd hp; simp at hp
  | cons p0 t ih =>
      intro acc res p h hnd hp
      unfold getCIgo at h
      cases hpo : profileOne sess ms alpha sf p0 <;> rw [hpo] at h
      · simp at h
      · rename_i pr
        obtain ⟨ru, rd⟩ := pr
        dsimp only at h
        simp only [List.map_cons, List.nodup_cons] at hnd
        obtain ⟨hn0, hndt⟩ := hnd
        rcases List.mem_cons.mp hp with rfl | hpt
        · obtain ⟨hu, hd⟩ := profileOne_ok sess ms alpha sf p ru rd hpo
          obtain ⟨hpu, hpl⟩ :=
            getCIgo_preserve sess ms alpha sf t (accUpdate acc p ru rd) res p.pname h hn0
          refine ⟨ru, rd, hu, hd, ?_, ?_⟩
          · rw [hpu]
            exact dget_dset_self acc.parub p.pname ru.bound
          · rw [hpl]
            exact dget_dset_self acc.parlb p.pname rd.bound
        · exact ih (accUpdate acc p0 ru rd) res p h hndt hpt

/-! ### Claim theorems -/

/-- C1: when a direction run of `step_CI` reaches iteration `k > 0` (so solves
`0 .. k-1` succeeded) and the external solve at iteration `k` fails, the run
returns the parameter value recorded at iteration `k-1` as the bound, the
trajectory dicts retain the `k-1` entry but no entry keyed `k`, and the run
terminates immediately after that one failed call (`k+1` solver calls in
total, no retry). -/
theorem C1_solve_fail_rollback (e : Env) (dr : Dir) (sf : ℚ) (k : ℕ) (s : LoopState)
    (hst : stateAt (mkCtx e dr sf) k = some s)
    (hk : 0 < k)
    (hfail : e.solve k = none) :
    ∃ v r, dget s.var_dict ((k : Int) - 1) = some v ∧
      step_CI e dr sf = .ok (some r) ∧
      r.bound = .fin v ∧
      dget r.var_dict ((k : Int) - 1) = some v ∧
      dget r.var_dict (k : Int) = none ∧
      dget r.obj_dict (k : Int) = none ∧
      r.exit = .solveFailed ∧
      r.nsolves = k + 1 := by
  set c := mkCtx e dr sf with hc
  obtain ⟨hi, hn, hvd, hod, -, -⟩ := stateAt_inv c k s hst
  have hprev : (dget s.var_dict ((k : Int) - 1)).isSome = true := by
    rw [hvd]
    omega
  obtain ⟨v, hv⟩ := Option.isSome_iff_exists.mp hprev
  have hsolve : c.solve s.nsolves = none := by
    rw [hn]
    exact hfail
  have hb := stepBody_solve_none c s hsolve
  refine ⟨v, { bound := .fin v, states := [], var_dict := dpop s.var_dict (k : Int),
               obj_dict := dpop s.obj_dict (k : Int), exit := .solveFailed,
               nsolves := k + 1 }, hv, ?_, rfl, ?_, ?_, ?_, rfl, rfl⟩
  · rw [step_CI_eq e dr sf, run_of_ret c k s _ hst hb]
    unfold exceptBranch
    rw [hi, hn, hv]
  · rw [dget_dpop_ne s.var_dict (k : Int) ((k : Int) - 1) (by omega)]
    exact hv
  · exact dget_dpop_self s.var_dict (k : Int)
  · exact dget_dpop_self s.obj_dict (k : Int)

/-- Witness for C1 on the concrete run `e4` (success at call 0, failure at
call 1). -/
theorem C1_witness :
    ∃ v r, dget sUp1.var_dict ((1 : Int) - 1) = some v ∧
      step_CI e4 .up (1 / 100) = .ok (some r) ∧
      r.bound = .fin v ∧
      dget r.var_dict ((1 : Int) - 1) = some v ∧
      dget r.var_dict (1 : Int) = none ∧
      dget r.obj_dict (1 : Int) = none ∧
      r.exit = .solveFailed ∧
      r.nsolves = 1 + 1 :=
  C1_solve_fail_rollback e4 .up (1 / 100) 1 sUp1 (by with_unfolding_all rfl)
    (by decide) (by rfl)

/-- C8: when the external solver fails at iteration `0` of a direction run
(the run having been entered, so the guard holds initially), the recovery path
looks up the nonexistent record `-1` and `step_CI` raises `KeyError` instead of
returning a rolled-back result. -/
theorem C8_fail_at_zero_raises (e : Env) (dr : Dir) (sf : ℚ)
    (hg : guard (mkCtx e dr sf) (initState (mkCtx e dr sf)) = true)
    (hfail : e.solve 0 = none) :
    step_CI e dr sf = .error .keyError := by
  set c := mkCtx e dr sf with hc
  have hst0 : stateAt c 0 = some (initState c) := by
    unfold stateAt
    rw [if_pos hg]
  have hsolve : c.solve (initState c).nsolves = none := hfail
  have hb := stepBody_solve_none c (initState c) hsolve
  rw [step_CI_eq e dr sf, run_of_ret c 0 (initState c) _ hst0 hb]
  unfold exceptBranch
  rfl

/-- Witness for C8 on the concrete run `e8` (first solver call fails). -/
theorem C8_witness : step_CI e8 .up (1 / 100) = .error .keyError :=
  C8_fail_at_zero_raises e8 .up (1 / 100) (by with_unfolding_all rfl) (by rfl)

/-- C10: a declared bound equal to exactly `0` is falsy in Python, so
`step_CI` treats that side as unbounded: the up target becomes `inf`, the down
target becomes the hardcoded floor `1e-10`, and the whole run is identical to
a run with no declared bound on that side. -/
theorem C10_zero_bound_unbounded (e : Env) (sf : ℚ) :
    targetBound e.lb (some 0) .up = .pinf ∧
    targetBound (some 0) e.ub .down = .fin (1 / 10000000000) ∧
    step_CI { e with ub := some 0 } .up sf = step_CI { e with ub := none } .up sf ∧
    step_CI { e with lb := some 0 } .down sf = step_CI { e with lb := none } .down sf := by
  refine ⟨by simp [targetBound], by simp [targetBound], ?_, ?_⟩
  · have hm : mkCtx { e with ub := some 0 } .up sf = mkCtx { e with ub := none } .up sf := by
      simp [mkCtx, targetBound]
    rw [step_CI_eq { e with ub := some 0 } .up sf, step_CI_eq { e with ub := none } .up sf, hm]
  · have hm : mkCtx { e with lb := some 0 } .down sf = mkCtx { e with lb := none } .down sf := by
      simp [mkCtx, targetBound]
    rw [step_CI_eq { e with lb := some 0 } .down sf, step_CI_eq { e with lb := none } .down sf, hm]

/-- C7 counterexample: a truthy non-string discretization identifier together
with `presolve = False` raises nothing during setup, refuting "fails
immediately ... regardless of the other construction options". -/
theorem C7_counterexample :
    daeTruthy (PyVal.pyobj true) = true ∧
    isStr (PyVal.pyobj true) = false ∧
    initDaeCheck (PyVal.pyobj true) false = .ok () := ⟨rfl, rfl, rfl⟩

/-- C7 amended: setup raises `TypeError` exactly when a truthy discretization
identifier is supplied together with `presolve` and is not a string instance;
without `presolve` (or with a falsy identifier) nothing is validated, and
string identifiers are passed on to the external transformation factory
without any recognition check in this code. -/
theorem C7_amended (dae : PyVal) (presolve : Bool) :
    initDaeCheck dae presolve = .error .typeError ↔
      daeTruthy dae = true ∧ presolve = true ∧ isStr dae = false := by
  cases dae <;> cases presolve <;>
    simp [initDaeCheck, daeTruthy, isStr]

/-- C6: `load_json` after `to_json` onto any fresh session reproduces `alpha`,
`parub`, `parlb`, `var_dict` and `obj_dict` exactly (the JSON layer round-trips
Python floats bit-for-bit, including `Infinity`, and is modelled as an exact
record). -/
theorem C6_roundtrip (s t : SessionAttrs) :
    (load_json t (to_json s)).alpha = s.alpha ∧
    (load_json t (to_json s)).parub = s.parub ∧
    (load_json t (to_json s)).parlb = s.parlb ∧
    (load_json t (to_json s)).var_dict = s.var_dict ∧
    (load_json t (to_json s)).obj_dict = s.obj_dict :=
  ⟨rfl, rfl, rfl, rfl, rfl⟩

/-- C2: (i) the run only consults the solver oracle below index `maxSteps`
(so at most `N` solver invocations are possible); (ii) any normally returned
result records at most `ctol` solver calls; (iii) when the run reaches the
last allowed iteration (`i = ctol - 1`), its solve succeeds and the error
statistic does not exceed the threshold, the run returns signed infinity for
the direction with the `budget` status, having made exactly `ctol` calls. -/
theorem C2_budget_and_call_bound (e : Env) (dr : Dir) (sf : ℚ) :
    (∀ g : ℕ → Option ℚ, (∀ j, j < e.ctol → e.solve j = g j) →
      step_CI { e with solve := g } dr sf = step_CI e dr sf) ∧
    (∀ r, step_CI e dr sf = .ok (some r) → r.nsolves ≤ e.ctol) ∧
    (∀ s q, stateAt (mkCtx e dr sf) (e.ctol - 1) = some s →
      e.solve (e.ctol - 1) = some q →
      2 * (e.log q - e.log e.obj0) ≤ e.chi2isf e.alpha 1 →
      ∃ r, step_CI e dr sf = .ok (some r) ∧ r.exit = .budget ∧
        r.bound = signedInf dr ∧ r.nsolves = e.ctol) := by
  refine ⟨?_, ?_, ?_⟩
  · intro g hagree
    exact stepLoop_solve_congr (mkCtx e dr sf) g hagree (mkCtx e dr sf).ctol
      (initState (mkCtx e dr sf)) rfl
  · intro r hr
    exact stepLoop_nsolves_le (mkCtx e dr sf) (mkCtx e dr sf).ctol
      (initState (mkCtx e dr sf)) r rfl hr
  · intro s q hst hq herr
    set c := mkCtx e dr sf with hc
    obtain ⟨hi, hn, -, hod, -, -⟩ := stateAt_inv c (e.ctol - 1) s hst
    have hqs : c.solve s.nsolves = some q := by
      rw [hn]
      exact hq
    have hqp : 0 < s.i → (dget s.obj_dict ((s.i : Int) - 1)).isSome = true := by
      intro h0
      rw [hod, hi]
      omega
    have herr2 : ¬ c.etol < 2 * (c.log q - c.log c.objCI) := not_lt.mpr herr
    have hieq : s.i = c.ctol - 1 := hi
    have hctol : s.i < c.ctol := ((guard_iff c s).mp (stateAt_guard c _ s hst)).1
    have hb := stepBody_budget c s q hqs hqp herr2 hieq
    refine ⟨{ bound := signedInf c.dr, states := [],
              var_dict := dset s.var_dict (s.i : Int)
                (c.popt + (s.pstep + s.stepfrac * c.popt)),
              obj_dict := dset s.obj_dict (s.i : Int) q,
              exit := .budget, nsolves := s.nsolves + 1 }, ?_, rfl, rfl, ?_⟩
    · rw [step_CI_eq e dr sf]
      exact run_of_ret c (e.ctol - 1) s _ hst hb
    · show s.nsolves + 1 = e.ctol
      have hctol2 : s.i < e.ctol := hctol
      rw [hn]
      omega

/-- Witness for C2 part (iii) on the concrete run `e5` (`maxSteps = 2`, both
solves succeed without converging). -/
theorem C2_witness :
    ∃ r, step_CI e5 .up (1 / 100) = .ok (some r) ∧ r.exit = .budget ∧
      r.bound = signedInf .up ∧ r.nsolves = e5.ctol :=
  (C2_budget_and_call_bound e5 .up (1 / 100)).2.2 sUp1 1
    (by with_unfolding_all rfl) (by rfl) (by norm_num [e5])

/-- C3 counterexample: in the `e3` run (optimum `10`, declared upper bound
`10.05`, step fraction `0.01`) the projected next value crosses the bound at
iteration `0` and the returned bound is the current value `10.1`, which lies
beyond the declared bound — refuting "never the bound itself or a value
beyond it". -/
theorem C3_counterexample :
    step_CI e3 .up (1 / 100) = .ok (some rUp) ∧
    rUp.exit = .boundReached ∧
    e3.ub = some (201 / 20) ∧
    rUp.bound = .fin (101 / 10) ∧
    (201 / 20 : ℚ) < 101 / 10 :=
  ⟨by with_unfolding_all rfl, rfl, rfl, rfl, by norm_num⟩

/-- C3 amended: when `step_CI` terminates because the projected next value
crosses the target bound, the returned bound equals the current parameter
value — the value stepped to in the last completed iteration
(`popt + pstep + stepfrac*popt` of the reached state).  Only the projected
next value is compared against the bound, so this returned value may itself
lie at or beyond the declared bound. -/
theorem C3_bound_return (e : Env) (dr : Dir) (sf : ℚ) (r : StepResult)
    (h : step_CI e dr sf = .ok (some r)) (hex : r.exit = .boundReached) :
    ∃ t, (∃ m, stateAt (mkCtx e dr sf) m = some t) ∧
      r.bound = .fin (e.popt + (t.pstep + t.stepfrac * e.popt)) := by
  obtain ⟨m, t, hst, hb⟩ := run_ret_exists e dr sf _ h (by simp)
  exact ⟨t, ⟨m, hst⟩, (stepBody_boundReached (mkCtx e dr sf) t r hb hex).1⟩

/-- Witness for the amended C3 on the `e3` run. -/
theorem C3_witness :
    ∃ t, (∃ m, stateAt (mkCtx e3 .up (1 / 100)) m = some t) ∧
      rUp.bound = .fin (e3.popt + (t.pstep + t.stepfrac * e3.popt)) :=
  C3_bound_return e3 .up (1 / 100) rUp (by with_unfolding_all rfl) rfl

/-- C4: at a successful iteration that continues, the recorded error statistic
equals exactly `2 * (ln(objective) - ln(baseline objective))`, the objective
is recorded under the iteration key, and the convergence test it passed uses
the threshold `chi2.isf(alpha, 1)` — which is the run constant `etol` of every
iteration of the session, computed once by `mkCtx`. -/
theorem C4_err_statistic (e : Env) (dr : Dir) (sf : ℚ) (s s2 : LoopState) (q : ℚ)
    (hq : e.solve s.nsolves = some q)
    (hc : stepBody (mkCtx e dr sf) s = .cont s2) :
    (mkCtx e dr sf).etol = e.chi2isf e.alpha 1 ∧
    s2.err = 2 * (e.log q - e.log e.obj0) ∧
    dget s2.obj_dict (s.i : Int) = some q ∧
    s2.err ≤ e.chi2isf e.alpha 1 := by
  obtain ⟨q2, d, hq2, -, -, hs2, -, herr⟩ := stepBody_cont (mkCtx e dr sf) s s2 hc
  have hqq : q2 = q := Option.some.inj (hq2.symm.trans hq)
  subst hqq
  refine ⟨rfl, ?_, ?_, ?_⟩
  · rw [hs2]
    rfl
  · rw [hs2]
    exact dget_dset_self s.obj_dict (s.i : Int) q2
  · rw [hs2]
    exact le_of_not_lt herr

/-- Witness for C4 on the first iteration of the `e4` run. -/
theorem C4_witness :
    (mkCtx e4 .up (1 / 100)).etol = e4.chi2isf e4.alpha 1 ∧
    sUp1.err = 2 * (e4.log 1 - e4.log e4.obj0) ∧
    dget sUp1.obj_dict ((initState (mkCtx e4 .up (1 / 100))).i : Int) = some 1 ∧
    sUp1.err ≤ e4.chi2isf e4.alpha 1 :=
  C4_err_statistic e4 .up (1 / 100) (initState (mkCtx e4 .up (1 / 100))) sUp1 1
    (by rfl) (by with_unfolding_all rfl)

/-- C9 counterexample: in the `e9` downward run every objective is exactly
`1`, so at iteration `1` the progress measure is `|0 - 0| / (|0| * stepfrac)`,
which numpy evaluates to `nan`; `nan <= 0.01` is false, so the reset branch IS
taken at an iteration after the first: the state entering iteration `2` has
`stepfrac = def_SF = -0.01`, not `1.05 * (-21/2000)` — refuting both
"`d ≤ 0.01` at every `i > 0`" and "the reset branch is never taken in the
downward direction". -/
theorem C9_counterexample :
    stateAt (mkCtx e9 .down (1 / 100)) 1 = some sDn1 ∧
    sDn1.stepfrac < 0 ∧
    e9.solve 1 = some 1 ∧
    dget sDn1.obj_dict ((1 : Int) - 1) = some 1 ∧
    dComp (mkCtx e9 .down (1 / 100)) 1 1 sDn1.stepfrac = .nan ∧
    dLE (dComp (mkCtx e9 .down (1 / 100)) 1 1 sDn1.stepfrac) (1 / 100) = false ∧
    stateAt (mkCtx e9 .down (1 / 100)) 2 = some sDn2 ∧
    sDn2.stepfrac = (mkCtx e9 .down (1 / 100)).defSF ∧
    sDn2.stepfrac ≠ 21 / 20 * sDn1.stepfrac :=
  ⟨by with_unfolding_all rfl, by norm_num [sDn1], by rfl,
   by with_unfolding_all rfl, by with_unfolding_all rfl, by with_unfolding_all rfl,
   by with_unfolding_all rfl, by with_unfolding_all rfl, by norm_num [sDn1, sDn2]⟩

/-- C9 amended: in a downward run the step fraction stays negative, so at any
iteration `i ≥ 1` the progress measure `d` passes the `d ≤ 0.01` test — it is
a nonpositive quotient or `-inf` — and the step fraction is multiplied by
`1.05`, EXCEPT when `log(obj_prev)` and `log(obj_cur)` are both exactly zero
(consecutive objectives of exactly `1.0`): there `d = 0.0 / -0.0 = nan`, the
test fails, and the reset-to-`def_SF` branch is taken. -/
theorem C9_downward_reset_iff (e : Env) (sf : ℚ) (k : ℕ) (s : LoopState) (q qp : ℚ)
    (hsf : 0 < sf)
    (hst : stateAt (mkCtx e .down sf) k = some s)
    (hk : 1 ≤ k)
    (hq : e.solve k = some q)
    (hqp : dget s.obj_dict ((k : Int) - 1) = some qp) :
    (dLE (dComp (mkCtx e .down sf) qp q s.stepfrac) (1 / 100) = false ↔
      e.log qp = 0 ∧ e.log q = 0) ∧
    (¬ (e.log qp = 0 ∧ e.log q = 0) →
      updSF (mkCtx e .down sf) s.stepfrac
        (dComp (mkCtx e .down sf) qp q s.stepfrac) = 21 / 20 * s.stepfrac) ∧
    ((e.log qp = 0 ∧ e.log q = 0) →
      updSF (mkCtx e .down sf) s.stepfrac
        (dComp (mkCtx e .down sf) qp q s.stepfrac) = (mkCtx e .down sf).defSF) := by
  set c := mkCtx e .down sf with hc
  have hsfneg : s.stepfrac < 0 := by
    apply (stateAt_inv c k s hst).2.2.2.2.2
    show -sf < 0
    linarith
  have hlog : c.log = e.log := rfl
  have hmain : dLE (dComp c qp q s.stepfrac) (1 / 100) = false ↔
      (e.log qp = 0 ∧ e.log q = 0) := by
    rw [← hlog]
    unfold dComp
    by_cases hden : |c.log qp| * s.stepfrac = 0
    · have hlq : c.log qp = 0 := by
        rcases mul_eq_zero.mp hden with h | h
        · exact abs_eq_zero.mp h
        · exact absurd h (ne_of_lt hsfneg)
      rw [if_pos hden]
      by_cases hnum : |c.log qp - c.log q| = 0
      · rw [if_pos hnum]
        have hlq2 : c.log q = 0 := by
          have h0 := abs_eq_zero.mp hnum
          rw [hlq] at h0
          linarith
        simp [dLE, hlq, hlq2]
      · rw [if_neg hnum, if_pos hsfneg]
        have hlq2 : c.log q ≠ 0 := by
          intro h0
          apply hnum
          rw [hlq, h0]
          simp
        simp [dLE, hlq2]
    · rw [if_neg hden]
      have hne : |c.log qp| ≠ 0 := by
        intro h0
        apply hden
        rw [h0, zero_mul]
      have habs : 0 < |c.log qp| := lt_of_le_of_ne (abs_nonneg _) (Ne.symm hne)
      have hden2 : |c.log qp| * s.stepfrac < 0 := mul_neg_of_pos_of_neg habs hsfneg
      have hquot : |c.log qp - c.log q| / (|c.log qp| * s.stepfrac) ≤ 1 / 100 := by
        have h0 : |c.log qp - c.log q| / (|c.log qp| * s.stepfrac) ≤ 0 :=
          div_nonpos_iff.mpr (Or.inl ⟨abs_nonneg _, hden2.le⟩)
        linarith
      have hlqne : c.log qp ≠ 0 := fun h0 => hne (by rw [h0]; simp)
      simp [dLE, hlqne]
      linarith [hquot]
  refine ⟨hmain, ?_, ?_⟩
  · intro hnp
    have ht : dLE (dComp c qp q s.stepfrac) (1 / 100) = true := by
      cases hb : dLE (dComp c qp q s.stepfrac) (1 / 100) with
      | false => exact absurd (hmain.mp hb) hnp
      | true => rfl
    unfold updSF
    rw [if_pos ht]
  · intro hp
    have hf : dLE (dComp c qp q s.stepfrac) (1 / 100) = false := hmain.mpr hp
    have hfn : ¬ dLE (dComp c qp q s.stepfrac) (1 / 100) = true := by
      rw [hf]
      simp
    unfold updSF
    rw [if_neg hfn]

/-- Witness for the amended C9 at iteration `1` of the `e9b` downward run,
whose objective logs are nonzero (the generic, growing case). -/
theorem C9_witness :
    (dLE (dComp (mkCtx e9b .down (1 / 100)) 1 1 sDn1.stepfrac) (1 / 100) = false ↔
      e9b.log 1 = 0 ∧ e9b.log 1 = 0) ∧
    (¬ (e9b.log 1 = 0 ∧ e9b.log 1 = 0) →
      updSF (mkCtx e9b .down (1 / 100)) sDn1.stepfrac
        (dComp (mkCtx e9b .down (1 / 100)) 1 1 sDn1.stepfrac) = 21 / 20 * sDn1.stepfrac) ∧
    ((e9b.log 1 = 0 ∧ e9b.log 1 = 0) →
      updSF (mkCtx e9b .down (1 / 100)) sDn1.stepfrac
        (dComp (mkCtx e9b .down (1 / 100)) 1 1 sDn1.stepfrac) =
        (mkCtx e9b .down (1 / 100)).defSF) :=
  C9_downward_reset_iff e9b (1 / 100) 1 sDn1 1 1 (by norm_num)
    (by with_unfolding_all rfl) (by decide) (by rfl) (by with_unfolding_all rfl)

/-- C5: for a profiled parameter whose two direction runs both finish with the
bound-reached status (both declared bounds present, reached before
convergence), the bounds stored by `get_CI` bracket the optimal value:
`parlb[p] ≤ popt[p] ≤ parub[p]`. -/
theorem C5_bounds_bracket_optimum (sess : Session) (ms : ℕ) (alpha sf : ℚ)
    (p : ParamSpec) (res : CIResult) (ru rd : StepResult)
    (hsf : 0 < sf)
    (hnd : (sess.params.map ParamSpec.pname).Nodup)
    (hp : p ∈ sess.params)
    (hres : get_CI sess ms alpha sf = .ok res)
    (hu : step_CI (envOf sess ms alpha p .up) .up sf = .ok (some ru))
    (hd : step_CI (envOf sess ms alpha p .down) .down sf = .ok (some rd))
    (hxu : ru.exit = .boundReached) (hxd : rd.exit = .boundReached) :
    ∃ ql qu, dget res.parlb p.pname = some (.fin ql) ∧
      dget res.parub p.pname = some (.fin qu) ∧
      ql ≤ p.popt ∧ p.popt ≤ qu := by
  obtain ⟨ru2, rd2, hu2, hd2, hgu, hgl⟩ :=
    getCIgo_lookup sess ms alpha sf sess.params _ res p hres hnd hp
  have hru : ru2 = ru := Option.some.inj (Except.ok.inj (hu2.symm.trans hu))
  have hrd : rd2 = rd := Option.some.inj (Except.ok.inj (hd2.symm.trans hd))
  subst hru
  subst hrd
  obtain ⟨qu, hqu, hle⟩ := step_CI_up_ge (envOf sess ms alpha p .up) sf ru2 hsf hu hxu
  obtain ⟨ql, hql, hge⟩ := step_CI_down_le (envOf sess ms alpha p .down) sf rd2 hsf hd hxd
  refine ⟨ql, qu, ?_, ?_, hge, hle⟩
  · rw [hgl, hql]
  · rw [hgu, hqu]

/-- Witness for C5 on the one-parameter session `sessW`, whose two runs reach
the declared bounds `9.95` and `10.05` around the optimum `10`. -/
theorem C5_witness :
    ∃ ql qu, dget resW.parlb pW.pname = some (.fin ql) ∧
      dget resW.parub pW.pname = some (.fin qu) ∧
      ql ≤ pW.popt ∧ pW.popt ≤ qu :=
  C5_bounds_bracket_optimum sessW 5 (1 / 20) (1 / 100) pW resW rUp rDn
    (by norm_num) (by simp [sessW, pW]) (List.Mem.head [])
    (by with_unfolding_all rfl) (by with_unfolding_all rfl)
    (by with_unfolding_all rfl) rfl rfl

end PyMPLE
